import Mathlib

/-
  Verification of the comment-thread reconciliation core of the
  vscode-pull-request-github extension, against a shallow embedding of the
  TypeScript sources (src/view/treeNodes/pullRequestNode.ts, the two
  ReviewDocumentCommentProvider revisions, src/view/reviewManager.ts).

  Conventions of the embedding: TypeScript arrays become List, nullable
  fields become Option, numeric ids become Nat, line numbers become Int
  (negative values are the sentinel the position mappers return), and
  stateful methods become pure functions from an explicit state record to a
  new state record.  Helpers that live in files the snapshot does not ship
  (src/common/utils.ts, src/common/diffPositionMapping.ts) are modelled from
  the specification and marked as such in their doc comments.
-/

set_option maxRecDepth 4096

namespace GHPR

/-- DiffChangeType from src/common/diffHunk.ts (the enum of per-line change
kinds of a unified diff). -/
inductive DiffChangeType where
  | Context
  | Add
  | Delete
  | Control
deriving DecidableEq

/-- One line of a diff hunk (DiffLine of src/common/diffHunk.ts): change
kind, 1-based line numbers on either side (0 when the side does not have the
line), the position inside the patch, and the raw text. -/
structure DiffLine where
  type : DiffChangeType
  oldLineNumber : Int
  newLineNumber : Int
  positionInHunk : Nat
  text : String
deriving DecidableEq

/-- A contiguous change region of a unified diff (DiffHunk of
src/common/diffHunk.ts). -/
structure DiffHunk where
  oldLineNumber : Int
  oldLength : Int
  newLineNumber : Int
  newLength : Int
  diffLines : List DiffLine
deriving DecidableEq

/-- GitChangeType from src/common/file.ts. -/
inductive GitChangeType where
  | ADD
  | COPY
  | DELETE
  | MODIFY
  | RENAME
deriving DecidableEq

/-! ## C10: provideDocumentContent content assembly from diff hunks
    (PRNode.provideDocumentContent, pullRequestNode.ts lines 496-560). -/

/-- One iteration of the base-side loop of provideDocumentContent: an Add
line contributes nothing, a Delete line pushes its text, a Control line
contributes nothing, and the final else branch (a Context line) pushes its
text. -/
def leftLineStep (left : List String) (diffLine : DiffLine) : List String :=
  match diffLine.type with
  | DiffChangeType.Add => left
  | DiffChangeType.Delete => left ++ [diffLine.text]
  | DiffChangeType.Control => left
  | DiffChangeType.Context => left ++ [diffLine.text]

/-- One iteration of the head-side loop of provideDocumentContent: an Add
line pushes its text, Delete and Control lines contribute nothing, and the
final else branch (a Context line) pushes its text. -/
def rightLineStep (right : List String) (diffLine : DiffLine) : List String :=
  match diffLine.type with
  | DiffChangeType.Add => right ++ [diffLine.text]
  | DiffChangeType.Delete => right
  | DiffChangeType.Control => right
  | DiffChangeType.Context => right ++ [diffLine.text]

/-- The guard of provideDocumentContent choosing the read-from-hunks branch:
the file change is partial, or its status is ADD or DELETE. -/
def readContentFromDiffHunk (isPartial : Bool) (status : GitChangeType) : Bool :=
  isPartial || status == GitChangeType.ADD || status == GitChangeType.DELETE

/-- PRNode.provideDocumentContent, restricted to what the snapshot computes
without the repository: when the guard selects the read-from-hunks branch it
joins the accumulated lines of the nested loops with a newline; otherwise the
content comes from a git show of the original file (none here). -/
def provideDocumentContent (isPartial : Bool) (status : GitChangeType)
    (isBase : Bool) (diffHunks : List DiffHunk) : Option String :=
  if readContentFromDiffHunk isPartial status then
    if isBase then
      some (String.intercalate "\n"
        (diffHunks.foldl (fun left h => h.diffLines.foldl leftLineStep left) []))
    else
      some (String.intercalate "\n"
        (diffHunks.foldl (fun right h => h.diffLines.foldl rightLineStep right) []))
  else
    none

/-- The claim's description of the base side: the texts of the Context and
Delete lines of all hunks, in hunk and line order. -/
def baseSideLines (diffHunks : List DiffHunk) : List String :=
  (((diffHunks.map DiffHunk.diffLines).flatten).filter
    (fun l => l.type == DiffChangeType.Context || l.type == DiffChangeType.Delete)).map
    DiffLine.text

/-- The claim's description of the head side: the texts of the Context and
Add lines of all hunks, in hunk and line order. -/
def headSideLines (diffHunks : List DiffHunk) : List String :=
  (((diffHunks.map DiffHunk.diffLines).flatten).filter
    (fun l => l.type == DiffChangeType.Context || l.type == DiffChangeType.Add)).map
    DiffLine.text

theorem foldl_leftLineStep (ls : List DiffLine) : ∀ acc : List String,
    ls.foldl leftLineStep acc =
      acc ++ (ls.filter
        (fun l => l.type == DiffChangeType.Context || l.type == DiffChangeType.Delete)).map
        DiffLine.text := by
  induction ls with
  | nil => intro acc; simp
  | cons l ls ih =>
    intro acc
    simp only [List.foldl_cons, ih]
    cases h : l.type <;>
      simp [leftLineStep, h, List.filter_cons]

theorem foldl_rightLineStep (ls : List DiffLine) : ∀ acc : List String,
    ls.foldl rightLineStep acc =
      acc ++ (ls.filter
        (fun l => l.type == DiffChangeType.Context || l.type == DiffChangeType.Add)).map
        DiffLine.text := by
  induction ls with
  | nil => intro acc; simp
  | cons l ls ih =>
    intro acc
    simp only [List.foldl_cons, ih]
    cases h : l.type <;>
      simp [rightLineStep, h, List.filter_cons]

theorem foldl_hunks_left (hs : List DiffHunk) : ∀ acc : List String,
    hs.foldl (fun left h => h.diffLines.foldl leftLineStep left) acc
      = acc ++ baseSideLines hs := by
  induction hs with
  | nil => intro acc; simp [baseSideLines]
  | cons h hs ih =>
    intro acc
    rw [List.foldl_cons, foldl_leftLineStep, ih]
    simp [baseSideLines, List.filter_append, List.append_assoc]

theorem foldl_hunks_right (hs : List DiffHunk) : ∀ acc : List String,
    hs.foldl (fun right h => h.diffLines.foldl rightLineStep right) acc
      = acc ++ headSideLines hs := by
  induction hs with
  | nil => intro acc; simp [headSideLines]
  | cons h hs ih =>
    intro acc
    rw [List.foldl_cons, foldl_rightLineStep, ih]
    simp [headSideLines, List.filter_append, List.append_assoc]

/-- C10: for a file change read from its diff hunks (isPartial, or status
added or deleted), provideDocumentContent returns for the base side exactly
the texts of the Context and Delete lines of all hunks in hunk and line
order joined with newline (Add and Control lines never included), and for
the head side exactly the Context and Add lines (Delete and Control lines
never included). -/
theorem provideDocumentContent_hunk_lines (isPartial : Bool)
    (status : GitChangeType) (diffHunks : List DiffHunk)
    (h : readContentFromDiffHunk isPartial status = true) :
    provideDocumentContent isPartial status true diffHunks
        = some (String.intercalate "\n" (baseSideLines diffHunks)) ∧
    provideDocumentContent isPartial status false diffHunks
        = some (String.intercalate "\n" (headSideLines diffHunks)) := by
  constructor
  · simp [provideDocumentContent, h, foldl_hunks_left]
  · simp [provideDocumentContent, h, foldl_hunks_right]

/-- A hunk exercising all four line kinds. -/
def sampleHunk : DiffHunk :=
  { oldLineNumber := 1, oldLength := 2, newLineNumber := 1, newLength := 2
    diffLines :=
      [ { type := DiffChangeType.Control, oldLineNumber := -1, newLineNumber := -1
          positionInHunk := 0, text := "@@ -1,2 +1,2 @@" }
      , { type := DiffChangeType.Context, oldLineNumber := 1, newLineNumber := 1
          positionInHunk := 1, text := "ctx" }
      , { type := DiffChangeType.Delete, oldLineNumber := 2, newLineNumber := 0
          positionInHunk := 2, text := "removed" }
      , { type := DiffChangeType.Add, oldLineNumber := 0, newLineNumber := 2
          positionInHunk := 3, text := "inserted" } ] }

/-- Witness for C10 at a concrete partial MODIFY file change. -/
theorem provideDocumentContent_hunk_lines_holds :
    provideDocumentContent true GitChangeType.MODIFY true [sampleHunk]
        = some (String.intercalate "\n" (baseSideLines [sampleHunk])) ∧
    provideDocumentContent true GitChangeType.MODIFY false [sampleHunk]
        = some (String.intercalate "\n" (headSideLines [sampleHunk])) :=
  provideDocumentContent_hunk_lines true GitChangeType.MODIFY [sampleHunk] rfl

/-! ## Comments and threads
    vscode.Comment / vscode.CommentThread as the reconciler sees them. -/

/-- One reaction entry of a vscode comment: its label and whether the
current user has reacted. -/
structure CommentReaction where
  label : String
  hasReacted : Bool
deriving DecidableEq

/-- A vscode.Comment as the reconciler reads it: its commentId (the raw
comment id as a string), its body text and its optional reaction list. -/
structure VComment where
  commentId : String
  body : String
  commentReactions : Option (List CommentReaction)
deriving DecidableEq

/-- A vscode.CommentThread as the reconciler reads it: the threadId derived
from the first raw comment id, and its ordered comment list.  Resource,
range and collapse state are not touched by the properties proved here. -/
structure CThread where
  threadId : String
  comments : List VComment
deriving DecidableEq

/-! ## C4: commentsEditedInThread
    (pullRequestNode.ts lines 109-142, identical copy inside
    updateComments of the second ReviewDocumentCommentProvider). -/

/-- The index loop at the end of commentsEditedInThread: it walks the two
reaction lists (of equal length when reached) and reports a mismatch of
label or hasReacted at any index. -/
def reactionsChangedLoop : List CommentReaction → List CommentReaction → Bool
  | r :: rs, o :: os =>
      r.label != o.label || r.hasReacted != o.hasReacted || reactionsChangedLoop rs os
  | _, _ => false

/-- The body of the some-callback of commentsEditedInThread for one old
comment: true when the new comments do not hold exactly one comment of the
same commentId, when the matched body differs, when exactly one side has a
reaction list, when the reaction lists differ in length, or when the index
loop finds a mismatch. -/
def commentEdited (newComments : List VComment) (oldComment : VComment) : Bool :=
  match newComments.filter (fun n => n.commentId == oldComment.commentId) with
  | [matchingComment] =>
    if matchingComment.body != oldComment.body then true
    else
      match matchingComment.commentReactions, oldComment.commentReactions with
      | none, none => false
      | some _, none => true
      | none, some _ => true
      | some newReactions, some oldReactions =>
        if newReactions.length != oldReactions.length then true
        else reactionsChangedLoop newReactions oldReactions
  | _ => true

/-- commentsEditedInThread: some old comment reports an edit. -/
def commentsEditedInThread (oldComments newComments : List VComment) : Bool :=
  oldComments.any (fun oldComment => commentEdited newComments oldComment)

/-- The changed test applied to a matched thread pair in updateComments and
updateFileChangeCommentThreads: comment-count mismatch, or
commentsEditedInThread. -/
def threadChanged (oldThread newThread : CThread) : Bool :=
  oldThread.comments.length != newThread.comments.length ||
    commentsEditedInThread oldThread.comments newThread.comments

/-- The claim's wording of reaction-list inequality: different cardinality,
or some index where label or hasReacted differ. -/
def specReactionListsDiffer (newReactions oldReactions : List CommentReaction) : Prop :=
  newReactions.length ≠ oldReactions.length ∨
    ∃ i : Nat, ∃ hn : i < newReactions.length, ∃ ho : i < oldReactions.length,
      ((newReactions.get ⟨i, hn⟩).label ≠ (oldReactions.get ⟨i, ho⟩).label ∨
       (newReactions.get ⟨i, hn⟩).hasReacted ≠ (oldReactions.get ⟨i, ho⟩).hasReacted)

/-- The claim's wording of the changed classification for a matched thread
pair: the comment lists differ in length, or some old comment has no unique
id-match among the new comments, or a matched pair differs in body text, or
exactly one side has a reaction list, or the reaction lists differ as
specReactionListsDiffer says. -/
def specThreadChanged (oldThread newThread : CThread) : Prop :=
  oldThread.comments.length ≠ newThread.comments.length ∨
  ∃ c ∈ oldThread.comments,
    (newThread.comments.filter (fun n => n.commentId == c.commentId)).length ≠ 1 ∨
    ∃ m, newThread.comments.filter (fun n => n.commentId == c.commentId) = [m] ∧
      (m.body ≠ c.body ∨
       m.commentReactions.isSome ≠ c.commentReactions.isSome ∨
       ∃ rs os, m.commentReactions = some rs ∧ c.commentReactions = some os ∧
         specReactionListsDiffer rs os)

theorem reactionsChangedLoop_iff (rs os : List CommentReaction) :
    reactionsChangedLoop rs os = true ↔
      ∃ i : Nat, ∃ hn : i < rs.length, ∃ ho : i < os.length,
        ((rs.get ⟨i, hn⟩).label ≠ (os.get ⟨i, ho⟩).label ∨
         (rs.get ⟨i, hn⟩).hasReacted ≠ (os.get ⟨i, ho⟩).hasReacted) := by
  induction rs generalizing os with
  | nil =>
    simp [reactionsChangedLoop]
  | cons r rs ih =>
    cases os with
    | nil => simp [reactionsChangedLoop]
    | cons o os =>
      simp only [reactionsChangedLoop, Bool.or_eq_true, bne_iff_ne, ih]
      constructor
      · rintro ((h | h) | ⟨i, hn, ho, h⟩)
        · exact ⟨0, by simp, by simp, Or.inl h⟩
        · exact ⟨0, by simp, by simp, Or.inr h⟩
        · exact ⟨i + 1, by simpa using hn, by simpa using ho, h⟩
      · rintro ⟨i, hn, ho, h⟩
        cases i with
        | zero => simp only [List.get] at h; tauto
        | succ i =>
          exact Or.inr ⟨i, by simpa using hn, by simpa using ho, by simpa using h⟩

theorem commentEdited_iff (newComments : List VComment) (c : VComment) :
    commentEdited newComments c = true ↔
      ((newComments.filter (fun n => n.commentId == c.commentId)).length ≠ 1 ∨
       ∃ m, newComments.filter (fun n => n.commentId == c.commentId) = [m] ∧
         (m.body ≠ c.body ∨
          m.commentReactions.isSome ≠ c.commentReactions.isSome ∨
          ∃ rs os, m.commentReactions = some rs ∧ c.commentReactions = some os ∧
            specReactionListsDiffer rs os)) := by
  unfold commentEdited
  cases hf : newComments.filter (fun n => n.commentId == c.commentId) with
  | nil => simp
  | cons m tail =>
    cases tail with
    | nil =>
      by_cases hb : m.body = c.body
      · cases hm : m.commentReactions with
        | none =>
          cases hc : c.commentReactions with
          | none => simp [hb, hm, hc]
          | some os => simp [hb, hm, hc]
        | some rs =>
          cases hc : c.commentReactions with
          | none => simp [hb, hm, hc]
          | some os =>
            by_cases hl : rs.length = os.length
            · simp [hb, hm, hc, hl, reactionsChangedLoop_iff, specReactionListsDiffer]
            · simp [hb, hm, hc, hl, specReactionListsDiffer]
      · simp [hb, bne_iff_ne]
    | cons m2 tail2 =>
      simp

/-- C4: a matched thread pair is classified changed exactly when the claim
says: the comment lists differ in length, or some old comment has no unique
id-match among the new comments, or a matched comment pair differs in body
text, or exactly one side has a reaction list, or the reaction lists differ
in length, or at some index they differ in label or in the
has-current-user-reacted flag. -/
theorem threadChanged_iff_specThreadChanged (oldThread newThread : CThread) :
    threadChanged oldThread newThread = true ↔ specThreadChanged oldThread newThread := by
  unfold threadChanged specThreadChanged commentsEditedInThread
  simp only [Bool.or_eq_true, bne_iff_ne, List.any_eq_true]
  constructor
  · rintro (h | ⟨c, hc, hedit⟩)
    · exact Or.inl h
    · exact Or.inr ⟨c, hc, (commentEdited_iff newThread.comments c).mp hedit⟩
  · rintro (h | ⟨c, hc, hspec⟩)
    · exact Or.inl h
    · exact Or.inr ⟨c, hc, (commentEdited_iff newThread.comments c).mpr hspec⟩

/-! ## C1 and C3: PRNode.updateFileChangeCommentThreads
    (pullRequestNode.ts lines 461-494). -/

/-- The value of matchingThreads inside the removal loop of
PRNode.updateFileChangeCommentThreads for one old thread: the source reads
newCommentThreads and newCommentThreads.filter(...).  Both call sites pass
an array for newCommentThreads (possibly empty), a JavaScript array is
truthy even when empty, and Array.prototype.filter always returns an array,
so the conjunction evaluates to the filter result and is never undefined. -/
def prNodeMatchingThreads (newCommentThreads : List CThread) (thread : CThread) :
    Option (List CThread) :=
  some (newCommentThreads.filter (fun newThread => newThread.threadId == thread.threadId))

/-- The removal loop of PRNode.updateFileChangeCommentThreads: the threads
of oldCommentThreads on which dispose is called, namely those for which
matchingThreads is not undefined. -/
def prNodeDisposedThreads (oldCommentThreads newCommentThreads : List CThread) :
    List CThread :=
  oldCommentThreads.filter
    (fun thread => (prNodeMatchingThreads newCommentThreads thread).isSome)

/-- An old live thread. -/
def c1OldThread : CThread :=
  { threadId := "100"
    comments := [{ commentId := "100", body := "first", commentReactions := none }] }

/-- A freshly projected thread carrying the same threadId (and the same
comment) as c1OldThread. -/
def c1NewThread : CThread :=
  { threadId := "100"
    comments := [{ commentId := "100", body := "first", commentReactions := none }] }

/-- C1 fails on the code: the claim says an old thread whose threadId
appears in newThreads is kept and not disposed, but the removal loop of
PRNode.updateFileChangeCommentThreads disposes the matched old thread, and
in fact disposes every old thread on every run, because its guard compares
an array (never undefined) against undefined. -/
theorem prNode_disposes_every_old_thread :
    prNodeDisposedThreads [c1OldThread] [c1NewThread] = [c1OldThread] ∧
    ∀ oldCommentThreads newCommentThreads : List CThread,
      prNodeDisposedThreads oldCommentThreads newCommentThreads = oldCommentThreads := by
  refine ⟨rfl, fun o n => ?_⟩
  simp [prNodeDisposedThreads, prNodeMatchingThreads]

/-- The in-place update applied while iterating newCommentThreads in
PRNode.updateFileChangeCommentThreads: each old thread matching the new
thread by threadId gets the new comment list when the matched pair is
classified changed (length mismatch, or commentsEditedInThread against the
first match). -/
def prNodeMatchLoopStep (olds : List CThread) (thread : CThread) : List CThread :=
  match olds.filter (fun o => o.threadId == thread.threadId) with
  | [] => olds
  | m0 :: _ =>
    olds.map (fun o =>
      if o.threadId == thread.threadId then
        if o.comments.length != thread.comments.length ||
            commentsEditedInThread m0.comments thread.comments then
          { o with comments := thread.comments }
        else o
      else o)

/-- The outcome of one pass of PRNode.updateFileChangeCommentThreads on one
map entry: the threads left in the map entry afterwards, the number of
dispose calls made, and the added threads. -/
structure PRNodePassResult where
  mapThreads : List CThread
  disposals : Nat
  added : List CThread
deriving DecidableEq

/-- One pass of PRNode.updateFileChangeCommentThreads over one file entry:
the removal loop disposes prNodeDisposedThreads; when newCommentThreads is
nonempty, added collects the new threads with no threadId match among the
old, matched old threads are updated in place, and when added is nonempty
createCommentThread replaces the map entry with just the added threads
(otherwise the entry keeps the old thread objects, with their in-place
updates). -/
def updateFileChangeCommentThreadsPass (oldCommentThreads newCommentThreads : List CThread) :
    PRNodePassResult :=
  let disposals := (prNodeDisposedThreads oldCommentThreads newCommentThreads).length
  if newCommentThreads.length != 0 then
    let added := newCommentThreads.filter (fun thread =>
      (oldCommentThreads.filter (fun o => o.threadId == thread.threadId)).length == 0)
    let updatedOlds := newCommentThreads.foldl prNodeMatchLoopStep oldCommentThreads
    { mapThreads := if added.length != 0 then added else updatedOlds
      disposals := disposals
      added := added }
  else
    { mapThreads := oldCommentThreads, disposals := disposals, added := [] }

/-- The thread used for the C3 run. -/
def c3Thread : CThread :=
  { threadId := "7"
    comments := [{ commentId := "7", body := "note", commentReactions := none }] }

/-- C3 fails on the code: reconciling the map entry [c3Thread] with the
identical projected input [c3Thread] and then running the very same pass
again still performs one dispose call on the second run (the claim requires
zero), while the added set of the second run is empty as the claim says.
The dispose call comes from the always-true matchingThreads guard of
PRNode.updateFileChangeCommentThreads. -/
theorem second_pass_still_disposes :
    (updateFileChangeCommentThreadsPass
        (updateFileChangeCommentThreadsPass [c3Thread] [c3Thread]).mapThreads
        [c3Thread]).disposals = 1 ∧
    (updateFileChangeCommentThreadsPass
        (updateFileChangeCommentThreadsPass [c3Thread] [c3Thread]).mapThreads
        [c3Thread]).added = [] := by
  constructor <;> rfl

/-! ## Raw comments and file changes -/

/-- A raw server-shape Comment as the providers read it: stable id, path,
nullable live position, original position, body, owning review id, the raw
stored hunk snippet and its parsed hunks, and the transient per-view
absolutePosition annotation. -/
structure Comment where
  id : Nat
  path : String
  position : Option Int
  originalPosition : Option Int
  body : String
  pullRequestReviewId : Nat
  diffHunk : String
  diffHunks : List DiffHunk
  absolutePosition : Option Int
  reactions : Option (List CommentReaction)
deriving DecidableEq

/-- The slice of a GitFileChangeNode the claims touch: its file name and its
comments sub-collection. -/
structure FileChange where
  fileName : String
  comments : List Comment
deriving DecidableEq

/-! ## C2: ReviewDocumentCommentProvider.deleteReview
    (first revision, lines 632-657): the pass over the four tracked
    thread maps after the server-side review deletion. -/

/-- The per-view thread maps and comment collections of
ReviewDocumentCommentProvider that deleteReview can reach. -/
structure ReviewProviderState where
  workspaceFileChangeCommentThreads : List (String × List CThread)
  obsoleteFileChangeCommentThreads : List (String × List CThread)
  prDocumentCommentThreads : List (String × List CThread)
  reviewDocumentCommentThreads : List (String × List CThread)
  comments : List Comment
  localFileChanges : List FileChange
deriving DecidableEq

/-- The filter deleteReview applies to one thread comment list: keep the
comments whose commentId matches no deleted comment id. -/
def deleteReviewFilterComments (deletedReviewComments : List Comment)
    (threadComments : List VComment) : List VComment :=
  threadComments.filter (fun comment =>
    !(deletedReviewComments.any
      (fun deletedComment => toString deletedComment.id == comment.commentId)))

/-- The threads of one map entry that survive the deletion, each carrying
its reduced comment list. -/
def survivingThreads (deletedReviewComments : List Comment)
    (threads : List CThread) : List CThread :=
  (threads.map (fun t =>
      { t with comments := deleteReviewFilterComments deletedReviewComments t.comments })).filter
    (fun t => !t.comments.isEmpty)

/-- The threads of one map entry whose comment list becomes empty: dispose
is called on them. -/
def emptiedThreads (deletedReviewComments : List Comment)
    (threads : List CThread) : List CThread :=
  (threads.map (fun t =>
      { t with comments := deleteReviewFilterComments deletedReviewComments t.comments })).filter
    (fun t => t.comments.isEmpty)

/-- The loop body of deleteReview over one map entry, written as the source
does: filter each thread comment list, dispose threads left empty, keep the
others. -/
def deleteReviewMapEntry (deletedReviewComments : List Comment)
    (threads : List CThread) : List CThread × List CThread :=
  threads.foldl (fun acc thread =>
    let filtered := deleteReviewFilterComments deletedReviewComments thread.comments
    if filtered.isEmpty then
      (acc.1, acc.2 ++ [{ thread with comments := filtered }])
    else
      (acc.1 ++ [{ thread with comments := filtered }], acc.2)) ([], [])

/-- The map entries that remain after the deletion: empty entries are
deleted from the map, the rest keep their surviving threads. -/
def survivingEntries (deletedReviewComments : List Comment)
    (m : List (String × List CThread)) : List (String × List CThread) :=
  (m.map (fun e => (e.1, survivingThreads deletedReviewComments e.2))).filter
    (fun e => !e.2.isEmpty)

/-- Every disposed thread of a map. -/
def emptiedOfMap (deletedReviewComments : List Comment)
    (m : List (String × List CThread)) : List CThread :=
  (m.map (fun e => emptiedThreads deletedReviewComments e.2)).flatten

/-- deleteReview over one whole map: for every file name, filter the entry;
a file name whose threads all emptied is deleted from the map. -/
def deleteReviewMap (deletedReviewComments : List Comment)
    (m : List (String × List CThread)) :
    List (String × List CThread) × List CThread :=
  m.foldl (fun acc entry =>
    ((if (deleteReviewMapEntry deletedReviewComments entry.2).1.isEmpty then acc.1
      else acc.1 ++ [(entry.1, (deleteReviewMapEntry deletedReviewComments entry.2).1)]),
     acc.2 ++ (deleteReviewMapEntry deletedReviewComments entry.2).2)) ([], [])

/-- The outcome of deleteReview: the provider state afterwards and every
thread on which dispose was called. -/
structure DeleteReviewResult where
  state : ReviewProviderState
  disposed : List CThread
deriving DecidableEq

/-- ReviewDocumentCommentProvider.deleteReview (first revision): the pass
walks the four thread maps; the flat comment list and the file change
comment sub-collections are not touched by this method. -/
def deleteReview (s : ReviewProviderState) (deletedReviewComments : List Comment) :
    DeleteReviewResult :=
  let w := deleteReviewMap deletedReviewComments s.workspaceFileChangeCommentThreads
  let o := deleteReviewMap deletedReviewComments s.obsoleteFileChangeCommentThreads
  let p := deleteReviewMap deletedReviewComments s.prDocumentCommentThreads
  let r := deleteReviewMap deletedReviewComments s.reviewDocumentCommentThreads
  { state :=
      { workspaceFileChangeCommentThreads := w.1
        obsoleteFileChangeCommentThreads := o.1
        prDocumentCommentThreads := p.1
        reviewDocumentCommentThreads := r.1
        comments := s.comments
        localFileChanges := s.localFileChanges }
    disposed := w.2 ++ o.2 ++ p.2 ++ r.2 }

theorem deleteReviewMapEntry_eq (deletedReviewComments : List Comment)
    (threads : List CThread) :
    deleteReviewMapEntry deletedReviewComments threads =
      (survivingThreads deletedReviewComments threads,
       emptiedThreads deletedReviewComments threads) := by
  have aux : ∀ (ts : List CThread) (acc : List CThread × List CThread),
      ts.foldl (fun acc thread =>
        let filtered := deleteReviewFilterComments deletedReviewComments thread.comments
        if filtered.isEmpty then
          (acc.1, acc.2 ++ [{ thread with comments := filtered }])
        else
          (acc.1 ++ [{ thread with comments := filtered }], acc.2)) acc =
      (acc.1 ++ survivingThreads deletedReviewComments ts,
       acc.2 ++ emptiedThreads deletedReviewComments ts) := by
    intro ts
    induction ts with
    | nil => intro acc; simp [survivingThreads, emptiedThreads]
    | cons t ts ih =>
      intro acc
      simp only [List.foldl_cons, ih]
      by_cases h : (deleteReviewFilterComments deletedReviewComments t.comments).isEmpty
      · simp [survivingThreads, emptiedThreads, List.filter_cons, h, List.append_assoc]
      · simp [survivingThreads, emptiedThreads, List.filter_cons, h, List.append_assoc]
  exact aux threads ([], [])

theorem deleteReviewMap_eq (deletedReviewComments : List Comment)
    (m : List (String × List CThread)) :
    deleteReviewMap deletedReviewComments m =
      (survivingEntries deletedReviewComments m,
       emptiedOfMap deletedReviewComments m) := by
  have aux : ∀ (es : List (String × List CThread))
      (acc : List (String × List CThread) × List CThread),
      es.foldl (fun acc entry =>
        ((if (deleteReviewMapEntry deletedReviewComments entry.2).1.isEmpty then acc.1
          else acc.1 ++ [(entry.1, (deleteReviewMapEntry deletedReviewComments entry.2).1)]),
         acc.2 ++ (deleteReviewMapEntry deletedReviewComments entry.2).2)) acc =
      (acc.1 ++ survivingEntries deletedReviewComments es,
       acc.2 ++ emptiedOfMap deletedReviewComments es) := by
    intro es
    induction es with
    | nil => intro acc; simp [survivingEntries, emptiedOfMap]
    | cons e es ih =>
      intro acc
      rw [List.foldl_cons]
      rw [ih]
      rw [deleteReviewMapEntry_eq]
      by_cases h : (survivingThreads deletedReviewComments e.2).isEmpty
      · simp [survivingEntries, emptiedOfMap, List.filter_cons, h, List.append_assoc]
      · simp only [h, if_false]
        simp [survivingEntries, emptiedOfMap, List.filter_cons, h, List.append_assoc]
  exact aux m ([], [])

/-- What the amended claim says of one map: every entry left in the map is
nonempty and holds only threads with nonempty comment lists free of deleted
ids, and every original thread either emptied (then it was disposed) or
survives with its reduced comment list inside its kept entry. -/
def mapRespectsDeletion (deletedReviewComments : List Comment)
    (orig result : List (String × List CThread)) (disposed : List CThread) : Prop :=
  (∀ entry ∈ result, entry.2 ≠ [] ∧
    ∀ t ∈ entry.2, t.comments ≠ [] ∧
      ∀ c ∈ t.comments, ∀ d ∈ deletedReviewComments, toString d.id ≠ c.commentId) ∧
  (∀ entry ∈ orig, ∀ t ∈ entry.2,
    (deleteReviewFilterComments deletedReviewComments t.comments = [] →
      { t with comments := deleteReviewFilterComments deletedReviewComments t.comments }
        ∈ disposed) ∧
    (deleteReviewFilterComments deletedReviewComments t.comments ≠ [] →
      (entry.1, survivingThreads deletedReviewComments entry.2) ∈ result ∧
      { t with comments := deleteReviewFilterComments deletedReviewComments t.comments }
        ∈ survivingThreads deletedReviewComments entry.2))

theorem deleteReviewMap_respects (deletedReviewComments : List Comment)
    (m : List (String × List CThread)) :
    mapRespectsDeletion deletedReviewComments m
      (deleteReviewMap deletedReviewComments m).1
      (deleteReviewMap deletedReviewComments m).2 := by
  rw [deleteReviewMap_eq]
  constructor
  · intro entry hentry
    rw [survivingEntries, List.mem_filter] at hentry
    obtain ⟨hmem, hne⟩ := hentry
    rw [List.mem_map] at hmem
    obtain ⟨e, _, rfl⟩ := hmem
    simp only [Bool.not_eq_eq_eq_not, Bool.not_true, List.isEmpty_eq_false] at hne
    refine ⟨by simpa using hne, ?_⟩
    intro t ht
    rw [survivingThreads, List.mem_filter] at ht
    obtain ⟨htm, htne⟩ := ht
    rw [List.mem_map] at htm
    obtain ⟨t0, _, rfl⟩ := htm
    simp only [Bool.not_eq_eq_eq_not, Bool.not_true, List.isEmpty_eq_false] at htne
    refine ⟨by simpa using htne, ?_⟩
    intro c hc d hd
    simp only [deleteReviewFilterComments] at hc
    have := List.of_mem_filter hc
    simp only [Bool.not_eq_eq_eq_not, Bool.not_true, List.any_eq_false] at this
    have hdc := this d hd
    simpa using hdc
  · intro entry hentry t ht
    constructor
    · intro hempty
      rw [emptiedOfMap]
      rw [List.mem_flatten]
      refine ⟨emptiedThreads deletedReviewComments entry.2, ?_, ?_⟩
      · exact List.mem_map_of_mem _ hentry
      · rw [emptiedThreads, List.mem_filter]
        refine ⟨List.mem_map_of_mem _ ht, by simp [hempty]⟩
    · intro hne
      have hmem : { t with comments := deleteReviewFilterComments deletedReviewComments t.comments }
          ∈ survivingThreads deletedReviewComments entry.2 := by
        rw [survivingThreads, List.mem_filter]
        refine ⟨List.mem_map_of_mem _ ht, by simp [hne]⟩
      refine ⟨?_, hmem⟩
      rw [survivingEntries, List.mem_filter]
      refine ⟨List.mem_map_of_mem _ hentry, ?_⟩
      have : survivingThreads deletedReviewComments entry.2 ≠ [] :=
        List.ne_nil_of_mem hmem
      simpa using this

/-- C2 amended: deleteReview removes every deleted comment from every live
thread of all four tracked view maps, disposing threads whose comment list
empties and dropping emptied map entries, while keeping survivors with their
reduced comment lists; the flat comment list and the file change comment
sub-collections are left unchanged by this pass. -/
theorem deleteReview_amended (s : ReviewProviderState)
    (deletedReviewComments : List Comment) :
    (deleteReview s deletedReviewComments).state.comments = s.comments ∧
    (deleteReview s deletedReviewComments).state.localFileChanges = s.localFileChanges ∧
    mapRespectsDeletion deletedReviewComments s.workspaceFileChangeCommentThreads
      (deleteReview s deletedReviewComments).state.workspaceFileChangeCommentThreads
      (deleteReview s deletedReviewComments).disposed ∧
    mapRespectsDeletion deletedReviewComments s.obsoleteFileChangeCommentThreads
      (deleteReview s deletedReviewComments).state.obsoleteFileChangeCommentThreads
      (deleteReview s deletedReviewComments).disposed ∧
    mapRespectsDeletion deletedReviewComments s.prDocumentCommentThreads
      (deleteReview s deletedReviewComments).state.prDocumentCommentThreads
      (deleteReview s deletedReviewComments).disposed ∧
    mapRespectsDeletion deletedReviewComments s.reviewDocumentCommentThreads
      (deleteReview s deletedReviewComments).state.reviewDocumentCommentThreads
      (deleteReview s deletedReviewComments).disposed := by
  have mono : ∀ (orig result : List (String × List CThread))
      (d1 d2 : List CThread),
      mapRespectsDeletion deletedReviewComments orig result d1 →
      (∀ x ∈ d1, x ∈ d2) →
      mapRespectsDeletion deletedReviewComments orig result d2 := by
    intro orig result d1 d2 h hsub
    refine ⟨h.1, ?_⟩
    intro entry hentry t ht
    refine ⟨fun hempty => hsub _ ((h.2 entry hentry t ht).1 hempty),
      (h.2 entry hentry t ht).2⟩
  refine ⟨rfl, rfl, ?_, ?_, ?_, ?_⟩ <;>
  · refine mono _ _ _ _ (deleteReviewMap_respects deletedReviewComments _) ?_
    intro x hx
    simp only [deleteReview, List.mem_append]
    tauto

/-- The comment the review deletion removes server-side. -/
def c2DeletedComment : Comment :=
  { id := 5, path := "a.ts", position := some 1, originalPosition := some 1
    body := "to be deleted", pullRequestReviewId := 9, diffHunk := ""
    diffHunks := [], absolutePosition := none, reactions := none }

/-- A provider state before the deletion: the comment sits in the flat list,
in the file change sub-collection and in one workspace thread. -/
def c2State : ReviewProviderState :=
  { workspaceFileChangeCommentThreads :=
      [("a.ts", [{ threadId := "5"
                   comments := [{ commentId := "5", body := "to be deleted"
                                  commentReactions := none }] }])]
    obsoleteFileChangeCommentThreads := []
    prDocumentCommentThreads := []
    reviewDocumentCommentThreads := []
    comments := [c2DeletedComment]
    localFileChanges := [{ fileName := "a.ts", comments := [c2DeletedComment] }] }

/-- C2 counterexample: after deleteReview with deleted set consisting of
c2DeletedComment (id 5), the comment with id 5 still sits in the flat
comment list and in the file change comment sub-collection, while the
thread that held it was removed from the workspace map; so the claim that
no deleted comment remains anywhere is false of this code. -/
theorem deleteReview_retains_flat_comment :
    (deleteReview c2State [c2DeletedComment]).state.comments = [c2DeletedComment] ∧
    (deleteReview c2State [c2DeletedComment]).state.localFileChanges.map
        FileChange.comments = [[c2DeletedComment]] ∧
    (deleteReview c2State [c2DeletedComment]).state.workspaceFileChangeCommentThreads
        = [] := by
  refine ⟨rfl, rfl, by decide⟩

/-- Witness for the amended C2 theorem at the concrete state: the deleted
id is purged from the workspace thread map and the emptied thread was
disposed. -/
theorem deleteReview_amended_holds :
    mapRespectsDeletion [c2DeletedComment] c2State.workspaceFileChangeCommentThreads
      (deleteReview c2State [c2DeletedComment]).state.workspaceFileChangeCommentThreads
      (deleteReview c2State [c2DeletedComment]).disposed :=
  (deleteReview_amended c2State [c2DeletedComment]).2.2.1

/-! ## C7 and C8: single-comment mutations of
    ReviewDocumentCommentProvider (editComment lines 679-729, deleteComment
    lines 731-769, editReaction lines 951-992, updateCommentThreadRoot
    lines 285-322). -/

/-- Modelled from the spec: github/utils.convertToVSCodeComment is not under
src/.  The UI comment carries String(id) as commentId, the body text and the
raw comment reaction summary. -/
def convertToVSCodeComment (c : Comment) : VComment :=
  { commentId := toString c.id, body := c.body, commentReactions := c.reactions }

/-- The local collections one comment mutation of the provider reaches: the
matched file comment list, the flat comment list and the owning live
thread. -/
structure ProviderLocalState where
  fileComments : List Comment
  allComments : List Comment
  thread : CThread
deriving DecidableEq

/-- An error surfaced by a remote API call or a guard. -/
structure RemoteErr where
  message : String
deriving DecidableEq

/-- The splice(index, 1, editedComment) pattern of editComment: replace the
comment at the first index whose String(id) equals the UI commentId, when
one exists. -/
def spliceReplaceById (l : List Comment) (commentId : String)
    (editedComment : Comment) : List Comment :=
  match l.findIdx? (fun c => toString c.id == commentId) with
  | some i => l.set i editedComment
  | none => l

/-- ReviewDocumentCommentProvider.editComment after the remote edit
returned editedComment: replace the raw comment in the file comment list
and the flat list by splice at its found index, and map the thread comment
array replacing the entry whose commentId equals the edited vscode comment
id.  none when the raw comment cannot be found (the method throws). -/
def editCommentOp (s : ProviderLocalState) (commentId : String)
    (editedComment : Comment) : Option ProviderLocalState :=
  match s.fileComments.find? (fun c => toString c.id == commentId) with
  | none => none
  | some _ =>
    some
      { fileComments := spliceReplaceById s.fileComments commentId editedComment
        allComments := spliceReplaceById s.allComments commentId editedComment
        thread :=
          { s.thread with
            comments := s.thread.comments.map (fun cmt =>
              if cmt.commentId == (convertToVSCodeComment editedComment).commentId then
                convertToVSCodeComment editedComment
              else cmt) } }

theorem spliceReplaceById_length (l : List Comment) (commentId : String)
    (editedComment : Comment) :
    (spliceReplaceById l commentId editedComment).length = l.length := by
  unfold spliceReplaceById
  cases l.findIdx? (fun c => toString c.id == commentId) <;> simp

theorem spliceReplaceById_get (l : List Comment) (commentId : String)
    (editedComment : Comment) (j : Nat) (hj : j < l.length) :
    (l.findIdx? (fun c => toString c.id == commentId) = some j →
      (spliceReplaceById l commentId editedComment)[j]? = some editedComment) ∧
    (l.findIdx? (fun c => toString c.id == commentId) ≠ some j →
      (spliceReplaceById l commentId editedComment)[j]? = l[j]?) := by
  unfold spliceReplaceById
  cases hf : l.findIdx? (fun c => toString c.id == commentId) with
  | none => simp
  | some i =>
    constructor
    · intro h
      have hij : i = j := Option.some.inj h
      subst hij
      simp [List.getElem?_set_self (by simpa using hj)]
    · intro h
      have hij : i ≠ j := fun hc => h (congrArg some hc)
      simp [List.getElem?_set_ne hij]

/-- C7: editComment replaces exactly the comment with the matching id at its
existing index in the file comment list, the flat list and the owning
thread comment array; threadId and the length (hence the relative order) of
each array are unchanged. -/
theorem editComment_in_place (s : ProviderLocalState) (commentId : String)
    (editedComment : Comment) (s2 : ProviderLocalState)
    (hid : toString editedComment.id = commentId)
    (hrun : editCommentOp s commentId editedComment = some s2) :
    s2.thread.threadId = s.thread.threadId ∧
    s2.fileComments.length = s.fileComments.length ∧
    s2.allComments.length = s.allComments.length ∧
    s2.thread.comments.length = s.thread.comments.length ∧
    (∀ j, j < s.fileComments.length →
      (s.fileComments.findIdx? (fun c => toString c.id == commentId) = some j →
        s2.fileComments[j]? = some editedComment) ∧
      (s.fileComments.findIdx? (fun c => toString c.id == commentId) ≠ some j →
        s2.fileComments[j]? = s.fileComments[j]?)) ∧
    (∀ j, j < s.allComments.length →
      (s.allComments.findIdx? (fun c => toString c.id == commentId) = some j →
        s2.allComments[j]? = some editedComment) ∧
      (s.allComments.findIdx? (fun c => toString c.id == commentId) ≠ some j →
        s2.allComments[j]? = s.allComments[j]?)) ∧
    (∀ j, ∀ hj : j < s.thread.comments.length,
      (s.thread.comments[j].commentId = commentId →
        s2.thread.comments[j]? = some (convertToVSCodeComment editedComment)) ∧
      (s.thread.comments[j].commentId ≠ commentId →
        s2.thread.comments[j]? = s.thread.comments[j]?)) := by
  unfold editCommentOp at hrun
  cases hf : s.fileComments.find? (fun c => toString c.id == commentId) with
  | none => rw [hf] at hrun; exact absurd hrun (by simp)
  | some found =>
    rw [hf] at hrun
    have hs2 := Option.some.inj hrun
    subst hs2
    refine ⟨rfl, spliceReplaceById_length _ _ _, spliceReplaceById_length _ _ _,
      by simp, ?_, ?_, ?_⟩
    · intro j hj
      exact spliceReplaceById_get s.fileComments commentId editedComment j hj
    · intro j hj
      exact spliceReplaceById_get s.allComments commentId editedComment j hj
    · intro j hj
      have hjm : s.thread.comments[j]? = some s.thread.comments[j] :=
        List.getElem?_eq_getElem hj
      constructor
      · intro hmatch
        rw [List.getElem?_map, hjm]
        simp [convertToVSCodeComment, hmatch, hid]
      · intro hne
        rw [List.getElem?_map, hjm]
        simp [convertToVSCodeComment, hid, hne]

/-- The comment whose body the witness edit replaces. -/
def c7Original : Comment :=
  { id := 3, path := "b.ts", position := some 2, originalPosition := some 2
    body := "old text", pullRequestReviewId := 1, diffHunk := ""
    diffHunks := [], absolutePosition := none, reactions := none }

/-- The server response of the witness edit: the same id, a new body. -/
def c7Edited : Comment :=
  { id := 3, path := "b.ts", position := some 2, originalPosition := some 2
    body := "new text", pullRequestReviewId := 1, diffHunk := ""
    diffHunks := [], absolutePosition := none, reactions := none }

/-- The local state of the witness edit. -/
def c7State : ProviderLocalState :=
  { fileComments := [c7Original]
    allComments := [c7Original]
    thread := { threadId := "3", comments := [convertToVSCodeComment c7Original] } }

/-- Witness for C7 at a concrete one-comment state. -/
theorem editComment_in_place_holds :
    ((editCommentOp c7State "3" c7Edited).getD c7State).thread.threadId
        = c7State.thread.threadId ∧
    ((editCommentOp c7State "3" c7Edited).getD c7State).fileComments.length
        = c7State.fileComments.length :=
  let h := editComment_in_place c7State "3" c7Edited
    ((editCommentOp c7State "3" c7Edited).getD c7State) rfl (by decide)
  ⟨h.1, h.2.1⟩

/-- ReviewDocumentCommentProvider.editReaction: guard that the raw comment
exists, then the remote reaction mutation, and only on its success the
in-place update of the raw comment reaction summary at its found index. -/
def editReaction (s : ProviderLocalState) (commentId : String)
    (remote : Except RemoteErr (List CommentReaction)) :
    ProviderLocalState × Option RemoteErr :=
  match s.fileComments.find? (fun c => toString c.id == commentId) with
  | none => (s, some { message := "Unable to find comment" })
  | some _ =>
    match remote with
    | Except.error e => (s, some e)
    | Except.ok reactionGroups =>
      match s.fileComments.findIdx? (fun c => toString c.id == commentId) with
      | some i =>
        match s.fileComments[i]? with
        | some editedComment =>
          ({ s with fileComments :=
              s.fileComments.set i { editedComment with reactions := some reactionGroups } },
           none)
        | none => (s, none)
      | none => (s, none)

/-- ReviewDocumentCommentProvider.deleteComment: the remote deletion first,
and only on its success the splice of the comment out of the file comment
list, the flat list and the thread comment array. -/
def deleteCommentOp (s : ProviderLocalState) (commentId : String)
    (remote : Except RemoteErr Unit) : ProviderLocalState × Option RemoteErr :=
  match remote with
  | Except.error e => (s, some e)
  | Except.ok _ =>
    let fileComments :=
      match s.fileComments.findIdx? (fun c => toString c.id == commentId) with
      | some i => s.fileComments.eraseIdx i
      | none => s.fileComments
    let allComments :=
      match s.allComments.findIdx? (fun c => toString c.id == commentId) with
      | some i => s.allComments.eraseIdx i
      | none => s.allComments
    let threadComments :=
      match s.thread.comments.findIdx? (fun c => c.commentId == commentId) with
      | some i => s.thread.comments.eraseIdx i
      | none => s.thread.comments
    ({ fileComments := fileComments
       allComments := allComments
       thread := { s.thread with comments := threadComments } }, none)

/-- ReviewDocumentCommentProvider.updateCommentThreadRoot: resolve the file
diff (remote read), map the thread anchor line to a diff position (throws
when negative), create the comment server-side, and only then push the raw
comment into the file comment list and the flat list and set the thread
comment array.  mapHeadLine abstracts
diffPositionMapping.mapHeadLineToDiffHunkPosition, whose file is not under
src/. -/
def updateCommentThreadRoot (s : ProviderLocalState)
    (mapHeadLine : String → Int → Int)
    (diffWith : Except RemoteErr String)
    (createComment : Except RemoteErr Comment)
    (threadStartLine : Int) : ProviderLocalState × Option RemoteErr :=
  match diffWith with
  | Except.error e => (s, some e)
  | Except.ok contentDiff =>
    let position := mapHeadLine contentDiff (threadStartLine + 1)
    if position < 0 then
      (s, some { message := "Comment position cannot be negative" })
    else
      match createComment with
      | Except.error e => (s, some e)
      | Except.ok rawComment =>
        ({ fileComments := s.fileComments ++ [rawComment]
           allComments := s.allComments ++ [rawComment]
           thread := { s.thread with comments := [convertToVSCodeComment rawComment] } },
         none)

/-- C8: when the remote API call of editReaction, deleteComment or
updateCommentThreadRoot fails, every local collection (file comment list,
flat list, thread comment array) is exactly as before: the local mutation
only happens after the remote call succeeds.  For updateCommentThreadRoot
both the failing diff read and the failing comment creation are covered. -/
theorem remote_failure_leaves_state (s : ProviderLocalState) (commentId : String)
    (e : RemoteErr) (mapHeadLine : String → Int → Int)
    (diffWith : Except RemoteErr String) (createComment : Except RemoteErr Comment)
    (threadStartLine : Int) :
    (editReaction s commentId (Except.error e)).1 = s ∧
    (deleteCommentOp s commentId (Except.error e)).1 = s ∧
    (updateCommentThreadRoot s mapHeadLine (Except.error e) createComment threadStartLine).1 = s ∧
    (updateCommentThreadRoot s mapHeadLine diffWith (Except.error e) threadStartLine).1 = s := by
  refine ⟨?_, rfl, rfl, ?_⟩
  · unfold editReaction
    cases s.fileComments.find? (fun c => toString c.id == commentId) <;> rfl
  · unfold updateCommentThreadRoot
    cases diffWith with
    | error e2 => rfl
    | ok contentDiff =>
      by_cases h : mapHeadLine contentDiff (threadStartLine + 1) < 0 <;> simp [h]


/-! ## groupBy and the projection helpers
    src/common/utils.ts and src/common/diffPositionMapping.ts are not part
    of the snapshot; the definitions below are modelled from the spec. -/

/-- Modelled from the spec: utils.groupBy, grouping a list into string-keyed
buckets.  A bucket keeps the item order of the input; bucket iteration order
(JavaScript object key order) is abstracted as first-occurrence order, which
no property proved here depends on. -/
def addToSections {α : Type} (key : α → String)
    (sections : List (String × List α)) (x : α) : List (String × List α) :=
  if sections.any (fun s => s.1 == key x) then
    sections.map (fun s => if s.1 == key x then (s.1, s.2 ++ [x]) else s)
  else
    sections ++ [(key x, [x])]

/-- Modelled from the spec: utils.groupBy over a whole list. -/
def groupBy {α : Type} (l : List α) (key : α → String) : List (String × List α) :=
  l.foldl (addToSections key) []

theorem addToSections_keys {α : Type} (key : α → String)
    (sections : List (String × List α)) (x : α) :
    (addToSections key sections x).map Prod.fst =
      if sections.any (fun s => s.1 == key x) then sections.map Prod.fst
      else sections.map Prod.fst ++ [key x] := by
  unfold addToSections
  by_cases h : sections.any (fun s => s.1 == key x)
  · simp only [h, if_true, List.map_map]
    apply List.map_congr_left
    intro p _
    by_cases hp : p.1 = key x <;> simp [hp]
  · simp [h]

theorem groupBy_keys_nodup_aux {α : Type} (key : α → String) (l : List α) :
    ∀ acc : List (String × List α), (acc.map Prod.fst).Nodup →
      ((l.foldl (addToSections key) acc).map Prod.fst).Nodup := by
  induction l with
  | nil => intro acc h; simpa using h
  | cons x l ih =>
    intro acc h
    rw [List.foldl_cons]
    apply ih
    rw [addToSections_keys]
    by_cases hx : acc.any (fun s => s.1 == key x)
    · simpa [hx] using h
    · rw [if_neg hx]
      rw [List.nodup_append]
      refine ⟨h, List.nodup_singleton _, ?_⟩
      intro k hk hk2
      rw [List.mem_singleton] at hk2
      subst hk2
      rw [List.mem_map] at hk
      obtain ⟨p, hp, hpk⟩ := hk
      exact hx (List.any_eq_true.mpr ⟨p, hp, by simp [hpk]⟩)

/-- The keys of groupBy are pairwise distinct. -/
theorem groupBy_keys_nodup {α : Type} (l : List α) (key : α → String) :
    ((groupBy l key).map Prod.fst).Nodup :=
  groupBy_keys_nodup_aux key l [] (by simp)

theorem addToSections_mem {α : Type} (key : α → String)
    (sections : List (String × List α)) (x : α) (p : String × List α)
    (hp : p ∈ addToSections key sections x) :
    p ∈ sections ∨
    (∃ q ∈ sections, q.1 = key x ∧ p = (q.1, q.2 ++ [x])) ∨
    p = (key x, [x]) := by
  unfold addToSections at hp
  by_cases h : sections.any (fun s => s.1 == key x)
  · rw [if_pos h, List.mem_map] at hp
    obtain ⟨q, hq, rfl⟩ := hp
    by_cases hqx : q.1 == key x
    · exact Or.inr (Or.inl ⟨q, hq, by simpa using hqx, by simp [hqx]⟩)
    · exact Or.inl (by simpa [hqx] using hq)
  · rw [if_neg h, List.mem_append] at hp
    rcases hp with hp | hp
    · exact Or.inl hp
    · exact Or.inr (Or.inr (by simpa using hp))

theorem groupBy_coherent_aux {α : Type} (key : α → String) (l : List α) :
    ∀ acc : List (String × List α),
      (∀ p ∈ acc, ∀ y ∈ p.2, key y = p.1) →
      ∀ p ∈ l.foldl (addToSections key) acc, ∀ y ∈ p.2, key y = p.1 := by
  induction l with
  | nil => intro acc h; simpa using h
  | cons x l ih =>
    intro acc h
    rw [List.foldl_cons]
    apply ih
    intro p hp y hy
    rcases addToSections_mem key acc x p hp with hmem | ⟨q, hq, hqk, rfl⟩ | rfl
    · exact h p hmem y hy
    · simp only [List.mem_append, List.mem_singleton] at hy
      rcases hy with hy | rfl
      · exact h q hq y hy
      · exact hqk.symm
    · simp only [List.mem_singleton] at hy
      subst hy
      rfl

/-- Every member of a groupBy bucket has the bucket's key. -/
theorem groupBy_coherent {α : Type} (l : List α) (key : α → String) :
    ∀ p ∈ groupBy l key, ∀ y ∈ p.2, key y = p.1 :=
  groupBy_coherent_aux key l [] (by simp)

theorem groupBy_nonempty_aux {α : Type} (key : α → String) (l : List α) :
    ∀ acc : List (String × List α),
      (∀ p ∈ acc, p.2 ≠ []) →
      ∀ p ∈ l.foldl (addToSections key) acc, p.2 ≠ [] := by
  induction l with
  | nil => intro acc h; simpa using h
  | cons x l ih =>
    intro acc h
    rw [List.foldl_cons]
    apply ih
    intro p hp
    rcases addToSections_mem key acc x p hp with hmem | ⟨q, hq, hqk, rfl⟩ | rfl
    · exact h p hmem
    · simp
    · simp

/-- groupBy buckets are nonempty. -/
theorem groupBy_nonempty {α : Type} (l : List α) (key : α → String) :
    ∀ p ∈ groupBy l key, p.2 ≠ [] :=
  groupBy_nonempty_aux key l [] (by simp)

theorem groupBy_subset_aux {α : Type} (key : α → String) (l : List α) :
    ∀ acc : List (String × List α),
      ∀ p ∈ l.foldl (addToSections key) acc, ∀ y ∈ p.2,
        (∃ q ∈ acc, y ∈ q.2) ∨ y ∈ l := by
  induction l with
  | nil =>
    intro acc p hp y hy
    exact Or.inl ⟨p, by simpa using hp, hy⟩
  | cons x l ih =>
    intro acc p hp y hy
    rw [List.foldl_cons] at hp
    rcases ih (addToSections key acc x) p hp y hy with ⟨q, hq, hyq⟩ | hyl
    · rcases addToSections_mem key acc x q hq with hmem | ⟨q2, hq2, hq2k, rfl⟩ | rfl
      · exact Or.inl ⟨q, hmem, hyq⟩
      · simp only [List.mem_append, List.mem_singleton] at hyq
        rcases hyq with hyq | hyx
        · exact Or.inl ⟨q2, hq2, hyq⟩
        · exact Or.inr (hyx ▸ List.mem_cons_self _ l)
      · simp only [List.mem_singleton] at hyq
        exact Or.inr (hyq ▸ List.mem_cons_self _ l)
    · exact Or.inr (List.mem_cons_of_mem x hyl)

/-- Every member of a groupBy bucket comes from the input list. -/
theorem groupBy_subset {α : Type} (l : List α) (key : α → String) :
    ∀ p ∈ groupBy l key, ∀ y ∈ p.2, y ∈ l := by
  intro p hp y hy
  rcases groupBy_subset_aux key l [] p hp y hy with ⟨q, hq, _⟩ | h
  · simp at hq
  · exact h

theorem addToSections_persist {α : Type} (key : α → String)
    (sections : List (String × List α)) (z : α) (p : String × List α)
    (hp : p ∈ sections) :
    ∃ p2 ∈ addToSections key sections z, p2.1 = p.1 ∧ ∀ y ∈ p.2, y ∈ p2.2 := by
  unfold addToSections
  by_cases h : sections.any (fun s => s.1 == key z)
  · rw [if_pos h]
    refine ⟨if p.1 == key z then (p.1, p.2 ++ [z]) else p, List.mem_map_of_mem _ hp, ?_⟩
    by_cases hpz : (p.1 == key z) = true
    · rw [if_pos hpz]
      exact ⟨rfl, fun y hy => List.mem_append_left _ hy⟩
    · rw [if_neg hpz]
      exact ⟨rfl, fun y hy => hy⟩
  · rw [if_neg h]
    exact ⟨p, List.mem_append_left _ hp, rfl, fun y hy => hy⟩

theorem groupBy_complete_aux {α : Type} (key : α → String) (l : List α) :
    ∀ (acc : List (String × List α)) (x : α),
      ((∃ p ∈ acc, p.1 = key x ∧ x ∈ p.2) ∨ x ∈ l) →
      ∃ p ∈ l.foldl (addToSections key) acc, p.1 = key x ∧ x ∈ p.2 := by
  induction l with
  | nil =>
    intro acc x h
    rcases h with ⟨p, hp, hk, hx⟩ | h
    · exact ⟨p, by simpa using hp, hk, hx⟩
    · simp at h
  | cons z l ih =>
    intro acc x h
    rw [List.foldl_cons]
    rcases h with ⟨p, hp, hk, hx⟩ | h
    · obtain ⟨p2, hp2, hp2k, hsub⟩ := addToSections_persist key acc z p hp
      exact ih (addToSections key acc z) x (Or.inl ⟨p2, hp2, hp2k.trans hk, hsub x hx⟩)
    · rcases List.mem_cons.mp h with rfl | hmem
      · refine ih (addToSections key acc x) x (Or.inl ?_)
        unfold addToSections
        by_cases hany : acc.any (fun s => s.1 == key x)
        · rw [if_pos hany]
          simp only [List.any_eq_true] at hany
          obtain ⟨q, hq, hqk⟩ := hany
          refine ⟨(q.1, q.2 ++ [x]), ?_, by simpa using hqk, by simp⟩
          have : (q.1, q.2 ++ [x]) = if q.1 == key x then (q.1, q.2 ++ [x]) else q := by
            rw [if_pos hqk]
          rw [this]
          exact List.mem_map_of_mem _ hq
        · rw [if_neg hany]
          exact ⟨(key x, [x]), by simp, rfl, by simp⟩
      · exact ih (addToSections key acc z) x (Or.inr hmem)

/-- Every input item lands in the bucket carrying its key. -/
theorem groupBy_complete {α : Type} (l : List α) (key : α → String) (x : α)
    (hx : x ∈ l) :
    ∃ p ∈ groupBy l key, p.1 = key x ∧ x ∈ p.2 :=
  groupBy_complete_aux key l [] x (Or.inr hx)

/-- With pairwise distinct keys, one key owns at most one bucket. -/
theorem nodup_fst_unique {α : Type} (s : List (String × List α))
    (hnd : (s.map Prod.fst).Nodup) (p q : String × List α)
    (hp : p ∈ s) (hq : q ∈ s) (hk : p.1 = q.1) : p = q := by
  induction s with
  | nil => simp at hp
  | cons a s ih =>
    simp only [List.map_cons, List.nodup_cons] at hnd
    rcases List.mem_cons.mp hp with rfl | hp2
    · rcases List.mem_cons.mp hq with rfl | hq2
      · rfl
      · exact absurd (hk ▸ List.mem_map_of_mem Prod.fst hq2) hnd.1
    · rcases List.mem_cons.mp hq with rfl | hq2
      · exact absurd (hk ▸ List.mem_map_of_mem Prod.fst hp2) hnd.1
      · exact ih hnd.2 hp2 hq2

/-! ## Position mapping helpers (modelled) and the live/outdated projectors
    (provideDocumentComments of pullRequestNode.ts lines 25-85,
    outdatedCommentsToCommentThreads lines 408-449 and
    provideCommentInfoForReviewUri lines 451-520 of the review provider). -/

/-- Modelled from the spec: diffPositionMapping.getZeroBased, n-1 when n is
positive, n unchanged otherwise. -/
def getZeroBased (n : Int) : Int := if n > 0 then n - 1 else n

/-- Modelled from the spec: diffPositionMapping.getDiffLineByPosition, the
exact-position lookup over the hunk lines. -/
def getDiffLineByPosition (diffHunks : List DiffHunk) (position : Int) :
    Option DiffLine :=
  ((diffHunks.map DiffHunk.diffLines).flatten).find?
    (fun diffLine => (diffLine.positionInHunk : Int) == position)

/-- Modelled from the spec: diffPositionMapping.getAbsolutePosition scans
the hunks for the line whose position matches the comment's hunk-relative
position and returns that line's old or new line number; a negative
sentinel when no line matches, in particular when the position is null. -/
def getAbsolutePosition (comment : Comment) (diffHunks : List DiffHunk)
    (isBase : Bool) : Int :=
  match comment.position with
  | none => -1
  | some p =>
    match getDiffLineByPosition diffHunks p with
    | none => -1
    | some diffLine => if isBase then diffLine.oldLineNumber else diffLine.newLineNumber

/-- String(comment.position): the JavaScript string of the nullable live
position, the grouping key of the live projections (and of
outdatedCommentsToCommentThreads). -/
def posKey (comment : Comment) : String :=
  match comment.position with
  | some p => toString p
  | none => "null"

/-- String(comment.originalPosition): the grouping key of the review-uri
obsolete projection. -/
def origKey (comment : Comment) : String :=
  match comment.originalPosition with
  | some p => toString p
  | none => "undefined"

/-- A projected UI thread: its threadId, anchor line and comment group. -/
structure DocThread where
  threadId : String
  line : Int
  comments : List Comment
deriving DecidableEq

/-- provideDocumentComments of pullRequestNode.ts: group the matching
comments by String(position); for each section resolve the first comment's
absolute position (getPositionInDiff when partial, getAbsolutePosition
otherwise — abstracted as the resolve argument), skip the section when it is
negative, and push one thread anchored at the zero-based position
otherwise. -/
def provideDocumentComments (resolve : Comment → Int)
    (matchingComments : List Comment) : List DocThread :=
  if matchingComments.isEmpty then []
  else
    (groupBy matchingComments posKey).foldl (fun threads sec =>
      match sec.2 with
      | [] => threads
      | firstComment :: _ =>
        if resolve firstComment < 0 then threads
        else threads ++ [{ threadId := toString firstComment.id
                           line := getZeroBased (resolve firstComment)
                           comments := sec.2 }]) []

/-- Whether a section survives the negative-position skip. -/
def sectionKept (resolve : Comment → Int) (sec : String × List Comment) : Bool :=
  match sec.2 with
  | [] => false
  | firstComment :: _ => !(decide (resolve firstComment < 0))

/-- The thread a surviving section produces. -/
def docThreadOfSection (resolve : Comment → Int)
    (sec : String × List Comment) : DocThread :=
  match sec.2 with
  | [] => { threadId := "", line := 0, comments := [] }
  | firstComment :: _ =>
    { threadId := toString firstComment.id
      line := getZeroBased (resolve firstComment)
      comments := sec.2 }

theorem provideDocumentComments_eq (resolve : Comment → Int)
    (matchingComments : List Comment) :
    provideDocumentComments resolve matchingComments =
      ((groupBy matchingComments posKey).filter (sectionKept resolve)).map
        (docThreadOfSection resolve) := by
  unfold provideDocumentComments
  by_cases he : matchingComments.isEmpty
  · rw [if_pos he]
    obtain rfl : matchingComments = [] := List.isEmpty_iff.mp he
    rfl
  · rw [if_neg he]
    have aux : ∀ (secs : List (String × List Comment)) (acc : List DocThread),
        secs.foldl (fun threads sec =>
          match sec.2 with
          | [] => threads
          | firstComment :: _ =>
            if resolve firstComment < 0 then threads
            else threads ++ [{ threadId := toString firstComment.id
                               line := getZeroBased (resolve firstComment)
                               comments := sec.2 }]) acc =
        acc ++ (secs.filter (sectionKept resolve)).map (docThreadOfSection resolve) := by
      intro secs
      induction secs with
      | nil => intro acc; simp
      | cons sec secs ih =>
        intro acc
        rw [List.foldl_cons, ih]
        cases hsec : sec.2 with
        | nil =>
          simp [List.filter_cons, sectionKept, hsec]
        | cons firstComment rest =>
          by_cases hneg : resolve firstComment < 0
          · simp [List.filter_cons, sectionKept, hsec, hneg]
          · simp [List.filter_cons, sectionKept, hsec, hneg, docThreadOfSection,
              List.append_assoc]
    exact aux _ []

/-- Every produced thread comes from a surviving section and carries that
section's comment group. -/
theorem provideDocumentComments_section (resolve : Comment → Int)
    (matchingComments : List Comment) (t : DocThread)
    (ht : t ∈ provideDocumentComments resolve matchingComments) :
    ∃ sec ∈ groupBy matchingComments posKey,
      sectionKept resolve sec = true ∧
      t = docThreadOfSection resolve sec ∧ t.comments = sec.2 := by
  rw [provideDocumentComments_eq] at ht
  rw [List.mem_map] at ht
  obtain ⟨sec, hsec, rfl⟩ := ht
  rw [List.mem_filter] at hsec
  refine ⟨sec, hsec.1, hsec.2, rfl, ?_⟩
  cases h2 : sec.2 with
  | nil => rw [sectionKept, h2] at hsec; simp at hsec
  | cons a rest => rw [docThreadOfSection, h2]

/-- Two sections of one grouping with the same nonempty comment list are the
same section. -/
theorem section_unique (matchingComments : List Comment)
    (sec1 sec2 : String × List Comment) (c0 : Comment) (cs : List Comment)
    (h1 : sec1 ∈ groupBy matchingComments posKey)
    (h2 : sec2 ∈ groupBy matchingComments posKey)
    (he : sec1.2 = sec2.2) (hg : sec1.2 = c0 :: cs) : sec1 = sec2 := by
  have hc1 : c0 ∈ sec1.2 := by rw [hg]; exact List.mem_cons_self _ _
  have hc2 : c0 ∈ sec2.2 := by rw [← he, hg]; exact List.mem_cons_self _ _
  have hk1 := groupBy_coherent matchingComments posKey sec1 h1 c0 hc1
  have hk2 := groupBy_coherent matchingComments posKey sec2 h2 c0 hc2
  exact nodup_fst_unique _ (groupBy_keys_nodup matchingComments posKey)
    sec1 sec2 h1 h2 (hk1.symm.trans hk2)

/-- The comment filter of the review-uri live projection
(provideCommentInfoForReviewUri for a matched live file): keep the comments
whose absolutePosition is defined and positive. -/
def reviewUriLiveComments (matchingComments : List Comment) : List Comment :=
  matchingComments.filter (fun comment =>
    !(comment.absolutePosition == none) && decide (0 < comment.absolutePosition.getD 0))

/-- The forEach preceding that filter: annotate every matching comment with
getAbsolutePosition against the matched file's hunks. -/
def setAbsolutePositions (diffHunks : List DiffHunk) (isBase : Bool)
    (matchingComments : List Comment) : List Comment :=
  matchingComments.map (fun comment =>
    { comment with
      absolutePosition := some (getAbsolutePosition comment diffHunks isBase) })

/-- C6: in a live projection a comment group whose resolved absolute
position is negative produces no thread (silently excluded, no error), a
group whose resolved position is positive produces exactly one thread
(existence and uniqueness), and the review-uri live filter keeps exactly
the comments whose absolutePosition is defined and positive. -/
theorem live_projection_position_filter (resolve : Comment → Int)
    (matchingComments : List Comment) (k : String) (g : List Comment)
    (c0 : Comment) (cs : List Comment)
    (hsec : (k, g) ∈ groupBy matchingComments posKey)
    (hg : g = c0 :: cs) :
    (resolve c0 < 0 →
      ∀ t ∈ provideDocumentComments resolve matchingComments, t.comments ≠ g) ∧
    (0 < resolve c0 →
      docThreadOfSection resolve (k, g) ∈ provideDocumentComments resolve matchingComments ∧
      ∀ t1 ∈ provideDocumentComments resolve matchingComments,
        ∀ t2 ∈ provideDocumentComments resolve matchingComments,
          t1.comments = g → t2.comments = g → t1 = t2) ∧
    (∀ c ∈ reviewUriLiveComments matchingComments,
      c ∈ matchingComments ∧ ∃ v, c.absolutePosition = some v ∧ 0 < v) ∧
    (∀ c ∈ matchingComments, (∃ v, c.absolutePosition = some v ∧ 0 < v) →
      c ∈ reviewUriLiveComments matchingComments) := by
  refine ⟨?_, ?_, ?_, ?_⟩
  · intro hneg t ht hcomm
    obtain ⟨sec, hsecm, hkept, _, htc⟩ :=
      provideDocumentComments_section resolve matchingComments t ht
    have hsame : sec = (k, g) :=
      section_unique matchingComments sec (k, g) c0 cs hsecm hsec
        (by rw [htc] at hcomm; exact hcomm) (htc ▸ hcomm ▸ hg)
    rw [hsame, sectionKept] at hkept
    simp only [hg] at hkept
    simp [hneg] at hkept
  · intro hpos
    have hkept : sectionKept resolve (k, g) = true := by
      rw [sectionKept]
      simp only [hg]
      simp [not_lt_of_gt hpos]
    constructor
    · rw [provideDocumentComments_eq]
      apply List.mem_map_of_mem
      rw [List.mem_filter]
      exact ⟨hsec, hkept⟩
    · intro t1 ht1 t2 ht2 hc1 hc2
      obtain ⟨sec1, hm1, _, rfl, htc1⟩ :=
        provideDocumentComments_section resolve matchingComments t1 ht1
      obtain ⟨sec2, hm2, _, rfl, htc2⟩ :=
        provideDocumentComments_section resolve matchingComments t2 ht2
      have h12 : sec1 = sec2 :=
        section_unique matchingComments sec1 sec2 c0 cs hm1 hm2
          (htc1.symm.trans (hc1.trans (hc2.symm.trans htc2)))
          (htc1.symm.trans (hc1.trans hg))
      rw [h12]
  · intro c hc
    rw [reviewUriLiveComments, List.mem_filter] at hc
    refine ⟨hc.1, ?_⟩
    obtain ⟨h1, h2⟩ := Bool.and_eq_true _ _ |>.mp hc.2
    cases habs : c.absolutePosition with
    | none => rw [habs] at h1; simp at h1
    | some v =>
      refine ⟨v, rfl, ?_⟩
      rw [habs] at h2
      simpa using h2
  · intro c hc ⟨v, hv, hvpos⟩
    rw [reviewUriLiveComments, List.mem_filter]
    refine ⟨hc, ?_⟩
    rw [hv]
    simp [hvpos]

/-- The comment group of the C6 witness: one live comment at position 1. -/
def c6Comment : Comment :=
  { id := 21, path := "d.ts", position := some 1, originalPosition := some 1
    body := "live", pullRequestReviewId := 4, diffHunk := ""
    diffHunks := [], absolutePosition := none, reactions := none }

/-- Witness for C6: with a resolver placing the group at line 5, the group
of c6Comment produces its thread in the projection. -/
theorem live_projection_position_filter_holds :
    docThreadOfSection (fun _ => (5 : Int)) ("1", [c6Comment])
      ∈ provideDocumentComments (fun _ => (5 : Int)) [c6Comment] :=
  ((live_projection_position_filter (fun _ => (5 : Int)) [c6Comment] "1"
    [c6Comment] c6Comment [] (by rw [show groupBy [c6Comment] posKey
      = [("1", [c6Comment])] from rfl]; exact List.mem_singleton.mpr rfl)
    rfl).2.1 (by norm_num)).1

/-! ## C5: the outdated/obsolete projections. -/

/-- The grouping of outdatedCommentsToCommentThreads (review provider lines
408-449): the source groups the outdated file's comments by
String(comment.position). -/
def outdatedCommentsSections (fileComments : List Comment) :
    List (String × List Comment) :=
  groupBy fileComments posKey

/-- The grouping of the obsolete branch of provideCommentInfoForReviewUri
(line 483): groupBy String(comment.originalPosition); the source notes that
comment.position is null in this case. -/
def reviewUriObsoleteSections (comments : List Comment) :
    List (String × List Comment) :=
  groupBy comments origKey

/-- outdatedCommentsToCommentThreads: one thread per section, anchored at
the new line number of the diff line found at the first comment's
originalPosition (falling back to the comment's stored absolutePosition),
zero-based. -/
def outdatedCommentsToCommentThreads (fileComments : List Comment) : List DocThread :=
  if fileComments.isEmpty then []
  else
    (outdatedCommentsSections fileComments).foldl (fun ret sec =>
      match sec.2 with
      | [] => ret
      | firstComment :: _ =>
        let diffLine :=
          match firstComment.originalPosition with
          | some p => getDiffLineByPosition firstComment.diffHunks p
          | none => none
        let absolutePosition :=
          match diffLine with
          | some dl => some dl.newLineNumber
          | none => firstComment.absolutePosition
        ret ++ [{ threadId := toString firstComment.id
                  line := getZeroBased (absolutePosition.getD 0)
                  comments := sec.2 }]) []

/-- The comment selection feeding a PR-view live projection (PRNode
fileChange construction, pullRequestNode.ts line 216): comments of the file
whose position is not null. -/
def prNodeFileComments (comments : List Comment) (fileName : String) :
    List Comment :=
  comments.filter (fun comment =>
    comment.path == fileName && !(comment.position == none))

/-- The outdated comment of the C5 scenario: null position, originalPosition
3. -/
def c5Comment : Comment :=
  { id := 11, path := "c.ts", position := none, originalPosition := some 3
    body := "outdated", pullRequestReviewId := 2, diffHunk := ""
    diffHunks := [], absolutePosition := none, reactions := none }

/-- C5 counterexample: the outdated view built by
outdatedCommentsToCommentThreads groups by String(position), so the
null-position comment with originalPosition 3 lands in the single group
keyed "null" and no group keyed "3" exists there, contrary to the claim. -/
theorem outdated_group_key_counterexample :
    outdatedCommentsSections [c5Comment] = [("null", [c5Comment])] ∧
    (outdatedCommentsSections [c5Comment]).filter (fun sec => sec.1 == "3") = [] := by
  constructor
  · rfl
  · rfl

/-- C5 amended: the review-uri obsolete projection groups by
originalPosition (the comment lands in the group keyed "3" there), while
outdatedCommentsToCommentThreads groups by String(position) (the comment
lands in the group keyed "null"); and the comment appears in no live view
projection: the PR-view input filters out null positions, and the
review-uri live filter drops it because its resolved absolute position is
the negative sentinel. -/
theorem outdated_groups_and_live_exclusion (comments : List Comment)
    (c : Comment) (hpos : c.position = none) (hmem : c ∈ comments) :
    (∃ g, ("null", g) ∈ outdatedCommentsSections comments ∧ c ∈ g) ∧
    (∀ p : Int, c.originalPosition = some p →
      ∃ g, (toString p, g) ∈ reviewUriObsoleteSections comments ∧ c ∈ g) ∧
    (∀ (resolve : Comment → Int) (fileName : String),
      ∀ t ∈ provideDocumentComments resolve (prNodeFileComments comments fileName),
        c ∉ t.comments) ∧
    (∀ (diffHunks : List DiffHunk) (isBase : Bool),
      ∀ x ∈ reviewUriLiveComments (setAbsolutePositions diffHunks isBase comments),
        x.position ≠ none) := by
  refine ⟨?_, ?_, ?_, ?_⟩
  · obtain ⟨p, hp, hk, hc⟩ := groupBy_complete comments posKey c hmem
    obtain ⟨k, g⟩ := p
    have hkey : posKey c = "null" := by rw [posKey, hpos]
    have hk2 : k = "null" := by rw [hkey] at hk; exact hk
    exact ⟨g, hk2 ▸ hp, hc⟩
  · intro p hop
    obtain ⟨q, hq, hk, hc⟩ := groupBy_complete comments origKey c hmem
    obtain ⟨k, g⟩ := q
    have hkey : origKey c = toString p := by rw [origKey, hop]
    have hk2 : k = toString p := by rw [hkey] at hk; exact hk
    exact ⟨g, hk2 ▸ hq, hc⟩
  · intro resolve fileName t ht hct
    obtain ⟨sec, hsec, _, _, htc⟩ :=
      provideDocumentComments_section resolve (prNodeFileComments comments fileName) t ht
    have hcin : c ∈ prNodeFileComments comments fileName :=
      groupBy_subset _ posKey sec hsec c (htc ▸ hct)
    rw [prNodeFileComments, List.mem_filter] at hcin
    have := hcin.2
    rw [hpos] at this
    simp at this
  · intro diffHunks isBase x hx
    rw [reviewUriLiveComments, List.mem_filter] at hx
    obtain ⟨hxm, hxp⟩ := hx
    rw [setAbsolutePositions, List.mem_map] at hxm
    obtain ⟨c2, _, rfl⟩ := hxm
    intro hxpos
    have hc2pos : c2.position = none := hxpos
    have habs : getAbsolutePosition c2 diffHunks isBase = -1 := by
      rw [getAbsolutePosition, hc2pos]
    rw [habs] at hxp
    simp at hxp

/-- Witness for the amended C5 theorem at the concrete scenario comment:
its group in the review-uri obsolete projection is keyed "3". -/
theorem outdated_groups_and_live_exclusion_holds :
    ∃ g, ("3", g) ∈ reviewUriObsoleteSections [c5Comment] ∧ c5Comment ∈ g := by
  have h := (outdated_groups_and_live_exclusion [c5Comment] c5Comment rfl
    (List.mem_singleton.mpr rfl)).2.1 3 rfl
  simpa using h

/-! ## C9: updateState / validateState serialization
    (reviewManager.ts lines 230-253 and the end of validateState, line 314). -/

/-- The scheduler-visible state of ReviewManager around validateState:
whether the _validateStatusInProgress field holds a promise, how many
chained validateState runs wait behind the promise chain, and how many
validateState bodies are executing right now. -/
structure CoordState where
  inFlight : Bool
  queued : Nat
  active : Nat
deriving DecidableEq

/-- The transitions of updateState and validateState under the event-loop
semantics:

* requestIdle — updateState with _validateStatusInProgress undefined
  assigns this.validateState() to the field, starting a body at once;
* requestBusy — updateState with the field set reassigns it to
  field.then(validateState): the new run is chained, not started;
* completeClear — a body reaches the end of the full validateState path and
  executes the final assignment of undefined to the field, whether or not
  later requests have chained onto the field;
* completeEarly — a body returns through one of the early returns of
  validateState, which do not touch the field;
* fireChained — with no body executing, the head of the chain has a settled
  predecessor, so its then-callback fires and its body starts. -/
inductive CoordStep : CoordState → CoordState → Prop where
  | requestIdle (s : CoordState) (h : s.inFlight = false) :
      CoordStep s { inFlight := true, queued := s.queued, active := s.active + 1 }
  | requestBusy (s : CoordState) (h : s.inFlight = true) :
      CoordStep s { inFlight := true, queued := s.queued + 1, active := s.active }
  | completeClear (s : CoordState) (h : 0 < s.active) :
      CoordStep s { inFlight := false, queued := s.queued, active := s.active - 1 }
  | completeEarly (s : CoordState) (h : 0 < s.active) :
      CoordStep s { inFlight := s.inFlight, queued := s.queued, active := s.active - 1 }
  | fireChained (s : CoordState) (h : s.active = 0) (hq : 0 < s.queued) :
      CoordStep s { inFlight := s.inFlight, queued := s.queued - 1, active := 1 }

/-- The states the coordinator can reach from the idle initial state. -/
inductive CoordReachable : CoordState → Prop where
  | init : CoordReachable { inFlight := false, queued := 0, active := 0 }
  | step (s t : CoordState) (hs : CoordReachable s) (h : CoordStep s t) :
      CoordReachable t

/-- C9 fails on the code: a state with two validateState bodies executing at
once is reachable.  The trace: a request starts run A; a second request
chains run B behind it; A completes through the full path and its final
assignment clears _validateStatusInProgress even though B is chained; B
fires; a third request now sees the field undefined and starts run C while
B is still executing — two concurrent runs, where the claim requires the
third request to chain behind the in-flight run. -/
theorem concurrent_validateState_reachable :
    CoordReachable { inFlight := true, queued := 0, active := 2 } := by
  have h0 : CoordReachable { inFlight := false, queued := 0, active := 0 } :=
    CoordReachable.init
  have h1 : CoordReachable { inFlight := true, queued := 0, active := 1 } :=
    CoordReachable.step _ _ h0 (CoordStep.requestIdle _ rfl)
  have h2 : CoordReachable { inFlight := true, queued := 1, active := 1 } :=
    CoordReachable.step _ _ h1 (CoordStep.requestBusy _ rfl)
  have h3 : CoordReachable { inFlight := false, queued := 1, active := 0 } :=
    CoordReachable.step _ _ h2 (CoordStep.completeClear _ (by norm_num))
  have h4 : CoordReachable { inFlight := false, queued := 0, active := 1 } :=
    CoordReachable.step _ _ h3 (CoordStep.fireChained _ rfl (by norm_num))
  exact CoordReachable.step _ _ h4 (CoordStep.requestIdle _ rfl)

end GHPR
